import Mathlib

/-!
Verification development for the boltdb storage-engine core: the mmap
growth-sizing policy (`MmapSizer::ComputeMmapSize` with `AlignTo`) and the
in-memory page allocator (`PagePool` with its per-thread cache and global
victim stack), shallowly embedded from the C++ sources.
-/

namespace Boltdb

/-- Width of `size_t` (the code targets 64-bit platforms). -/
def sizeTMod : Nat := 2 ^ 64

/-- Error codes of the storage engine, from `enum class DBErrorCode`. -/
inductive DBErrorCode where
  | kOk
  | kMmapTooLarge
  deriving DecidableEq, Repr

/-- Embedding of `AlignTo` (util.hh):
`return (size + alignment - 1) & ~(alignment - 1);` over `size_t`.
Subtraction and addition wrap modulo `2^64`; `~x` is `x XOR (2^64 - 1)`. -/
def AlignTo (size alignment : Nat) : Nat :=
  let am1 := (alignment + (sizeTMod - 1)) % sizeTMod
  ((size + am1) % sizeTMod) &&& ((sizeTMod - 1) ^^^ am1)

/-- `MmapSizer::kDefaultMaxMmapSize = 0xFFFFFFFFFFFF` (256 TB). -/
def kDefaultMaxMmapSize : Nat := 0xFFFFFFFFFFFF

/-- `MmapSizer::kDefaultMaxMmapStep = 1ULL << 30` (1 GiB). -/
def kDefaultMaxMmapStep : Nat := 2 ^ 30

/-- `MmapSizer::kMmapSizeLevels`: ascending powers of two from `2^15` to
`2^30`. -/
def kMmapSizeLevels : List Nat :=
  [2 ^ 15, 2 ^ 16, 2 ^ 17, 2 ^ 18, 2 ^ 19, 2 ^ 20,
   2 ^ 21, 2 ^ 22, 2 ^ 23, 2 ^ 24, 2 ^ 25, 2 ^ 26,
   2 ^ 27, 2 ^ 28, 2 ^ 29, 2 ^ 30]

/-- The configuration fields of `class MmapSizer`. -/
structure MmapSizer where
  max_mmap_size : Nat
  max_mmap_step : Nat
  page_size : Nat
  deriving Repr

/-- A `MmapSizer` built with the default `max_mmap_size`/`max_mmap_step`
arguments, as in `MmapSizer(page_size)`. -/
def MmapSizer.default (page_size : Nat) : MmapSizer :=
  { max_mmap_size := kDefaultMaxMmapSize
    max_mmap_step := kDefaultMaxMmapStep
    page_size := page_size }

/-- Embedding of `MmapSizer::ComputeMmapSize`.  `std::lower_bound` on the
sorted `kMmapSizeLevels` returns the first entry not less than
`requested_size`, embedded as `List.find?`. -/
def MmapSizer.ComputeMmapSize (s : MmapSizer) (requested_size : Nat) :
    Except DBErrorCode Nat :=
  if requested_size > s.max_mmap_size then
    .error .kMmapTooLarge
  else
    match kMmapSizeLevels.find? (fun lvl => requested_size ≤ lvl) with
    | some lvl => .ok lvl
    | none =>
      let new_size := AlignTo requested_size s.max_mmap_step
      let new_size := AlignTo new_size s.page_size
      .ok (min new_size s.max_mmap_size)

/-- Modelled from the spec: "round the request up to the nearest multiple of"
a given quantity — the least multiple of `a` at or above `x` (for `a > 0`),
used to compare `AlignTo`'s bitmask arithmetic with the spec's wording. -/
def roundUpMultiple (x a : Nat) : Nat := a * ((x + a - 1) / a)

/-- Modelled from the spec: the sizing policy in the spec's own words —
reject over-max requests, else first table entry at or above the request,
else round up to the max step, then to the page size, then clamp. -/
def ComputeMmapSizeSpec (s : MmapSizer) (requested_size : Nat) :
    Except DBErrorCode Nat :=
  if requested_size > s.max_mmap_size then
    .error .kMmapTooLarge
  else
    match kMmapSizeLevels.find? (fun lvl => requested_size ≤ lvl) with
    | some lvl => .ok lvl
    | none =>
      .ok (min
        (roundUpMultiple (roundUpMultiple requested_size s.max_mmap_step)
          s.page_size)
        s.max_mmap_size)

/-- And-ing with `(2^n - 1) XOR (2^k - 1)` clears the low `k` bits of a
number below `2^n`, i.e. rounds it down to a multiple of `2^k`. -/
lemma land_mask_eq_div_mul (y n k : Nat) (hk : k ≤ n) (hy : y < 2 ^ n) :
    y &&& ((2 ^ n - 1) ^^^ (2 ^ k - 1)) = 2 ^ k * (y / 2 ^ k) := by
  have h2 : 2 ^ k * (y / 2 ^ k) = (y >>> k) <<< k := by
    rw [Nat.shiftRight_eq_div_pow, Nat.shiftLeft_eq, Nat.mul_comm]
  rw [h2]
  refine Nat.eq_of_testBit_eq fun i => ?_
  rw [Nat.testBit_land, Nat.testBit_xor, Nat.testBit_two_pow_sub_one,
    Nat.testBit_two_pow_sub_one, Nat.testBit_shiftLeft, Nat.testBit_shiftRight]
  by_cases hik : i < k
  · have hin : i < n := lt_of_lt_of_le hik hk
    simp [hik, hin, Nat.not_le.mpr hik]
  · have hki : k + (i - k) = i := by omega
    by_cases hin : i < n
    · simp [hik, hin, Nat.le_of_not_lt hik, hki]
    · have hyi : y.testBit i = false :=
        Nat.testBit_eq_false_of_lt
          (lt_of_lt_of_le hy (Nat.pow_le_pow_right (by norm_num) (by omega)))
      simp [hik, hin, Nat.le_of_not_lt hik, hki, hyi]

/-- On power-of-two alignments without 64-bit overflow, `AlignTo` computes
the round-up to the nearest multiple. -/
lemma AlignTo_two_pow (size k : Nat) (hk : k < 64)
    (hov : size + 2 ^ k - 1 < 2 ^ 64) :
    AlignTo size (2 ^ k) = roundUpMultiple size (2 ^ k) := by
  have hone : 1 ≤ 2 ^ k := Nat.one_le_two_pow
  simp only [AlignTo, sizeTMod, roundUpMultiple]
  have hk64 : 2 ^ k < 2 ^ 64 := Nat.pow_lt_pow_right (by norm_num) hk
  have h1 : (2 ^ k + (2 ^ 64 - 1)) % 2 ^ 64 = 2 ^ k - 1 := by
    have hsplit : 2 ^ k + (2 ^ 64 - 1) = 2 ^ 64 + (2 ^ k - 1) := by omega
    rw [hsplit, Nat.add_mod_left, Nat.mod_eq_of_lt (by omega)]
  rw [h1]
  have h2 : (size + (2 ^ k - 1)) % 2 ^ 64 = size + 2 ^ k - 1 := by
    have hsum : size + (2 ^ k - 1) = size + 2 ^ k - 1 := by omega
    rw [hsum, Nat.mod_eq_of_lt hov]
  rw [h2]
  exact land_mask_eq_div_mul _ 64 k (by omega) hov

lemma le_roundUpMultiple (x a : Nat) (ha : 0 < a) : x ≤ roundUpMultiple x a := by
  unfold roundUpMultiple
  have hdm := Nat.div_add_mod (x + a - 1) a
  have hlt : (x + a - 1) % a < a := Nat.mod_lt _ ha
  omega

lemma roundUpMultiple_le (x a : Nat) : roundUpMultiple x a ≤ x + a - 1 :=
  Nat.mul_div_le (x + a - 1) a

lemma roundUpMultiple_mono (a : Nat) {x y : Nat} (h : x ≤ y) :
    roundUpMultiple x a ≤ roundUpMultiple y a :=
  Nat.mul_le_mul_left a (Nat.div_le_div_right (by omega))

/-- On a sorted list, the first hit of `(b ≤ ·)` dominates the first hit of
`(a ≤ ·)` when `a ≤ b`; mirrors `std::lower_bound` monotonicity. -/
lemma find?_le_mono {l : List Nat} (hl : l.Sorted (· ≤ ·)) {a b vb : Nat}
    (hab : a ≤ b) (hb : l.find? (fun x => b ≤ x) = some vb) :
    ∃ va, l.find? (fun x => a ≤ x) = some va ∧ va ≤ vb := by
  induction l with
  | nil => simp at hb
  | cons x xs ih =>
    rw [List.sorted_cons] at hl
    by_cases hbx : b ≤ x
    · rw [List.find?_cons_of_pos _ (by simpa using hbx)] at hb
      obtain rfl : x = vb := Option.some.inj hb
      exact ⟨x, List.find?_cons_of_pos _ (by simpa using le_trans hab hbx),
        le_refl x⟩
    · rw [List.find?_cons_of_neg _ (by simpa using hbx)] at hb
      by_cases hax : a ≤ x
      · refine ⟨x, List.find?_cons_of_pos _ (by simpa using hax), ?_⟩
        exact hl.1 vb (List.mem_of_find?_eq_some hb)
      · obtain ⟨va, hva, hle⟩ := ih hl.2 hb
        refine ⟨va, ?_, hle⟩
        rw [List.find?_cons_of_neg _ (by simpa using hax)]
        exact hva

lemma kMmapSizeLevels_sorted : kMmapSizeLevels.Sorted (· ≤ ·) := by
  norm_num [kMmapSizeLevels, List.sorted_cons]

lemma kMmapSizeLevels_le (v : Nat) (hv : v ∈ kMmapSizeLevels) : v ≤ 2 ^ 30 := by
  simp only [kMmapSizeLevels, List.mem_cons, List.not_mem_nil, or_false] at hv
  rcases hv with h | h | h | h | h | h | h | h | h | h | h | h | h | h | h | h <;>
    subst h <;> norm_num

lemma find?_none_gt {r : Nat}
    (h : kMmapSizeLevels.find? (fun lvl => r ≤ lvl) = none) : 2 ^ 30 < r := by
  rw [List.find?_eq_none] at h
  have hm : (2 ^ 30 : Nat) ∈ kMmapSizeLevels := by
    norm_num [kMmapSizeLevels]
  have := h (2 ^ 30) hm
  simpa using Nat.lt_of_not_le (by simpa using this)

/-- The default-configuration sizing policy equals its spec-worded form;
shared by the C2 and C3 developments. -/
lemma computeMmapSize_default_eq_spec (k requested_size : Nat) (hk : k < 64) :
    (MmapSizer.default (2 ^ k)).ComputeMmapSize requested_size =
      ComputeMmapSizeSpec (MmapSizer.default (2 ^ k)) requested_size := by
  unfold MmapSizer.ComputeMmapSize ComputeMmapSizeSpec MmapSizer.default
  simp only
  split
  · rfl
  · rename_i hgt
    cases hfind : kMmapSizeLevels.find? fun lvl =>
        decide (requested_size ≤ lvl) with
    | some lvl => rfl
    | none =>
      simp only [hfind]
      have hr : requested_size ≤ 2 ^ 48 - 1 := by
        simp only [kDefaultMaxMmapSize] at hgt
        omega
      have hstep : kDefaultMaxMmapStep = 2 ^ 30 := rfl
      rw [hstep, AlignTo_two_pow requested_size 30 (by omega) (by omega)]
      have hle1 : roundUpMultiple requested_size (2 ^ 30) ≤ 2 ^ 49 := by
        have := roundUpMultiple_le requested_size (2 ^ 30)
        omega
      have h2k : (2 : Nat) ^ k ≤ 2 ^ 63 :=
        Nat.pow_le_pow_right (by norm_num) (by omega)
      rw [AlignTo_two_pow _ k hk (by omega)]

/-- Claim C1 counterexample: the claim asserts `ComputeMmapSize(2^30 + 1)`
equals `2^30` rounded up to the page-size boundary; on the code it does not —
the code rounds the request itself up to the 1 GiB step and returns `2^31`. -/
theorem computeMmapSize_pow30_succ_counterexample :
    (MmapSizer.default 4096).ComputeMmapSize (2 ^ 30 + 1) ≠
      Except.ok (roundUpMultiple (2 ^ 30) 4096) := by
  intro h
  have h1 : (MmapSizer.default 4096).ComputeMmapSize (2 ^ 30 + 1) =
      Except.ok (2 ^ 31) := by rfl
  have h2 : roundUpMultiple (2 ^ 30) 4096 = 2 ^ 30 := by
    norm_num [roundUpMultiple]
  rw [h1, h2] at h
  injection h with h
  norm_num at h

/-- Claim C1, amended: with the default configuration and page size 4096,
`ComputeMmapSize 1 = 2^15`, `ComputeMmapSize (2^20) = 2^20`,
`ComputeMmapSize (2^30 + 1) = 2^31` (the request rounded up to the next
1 GiB step, already page-aligned), and every request above the maximum
region size is rejected with the too-large error. -/
theorem computeMmapSize_default_boundary_values :
    (MmapSizer.default 4096).ComputeMmapSize 1 = .ok (2 ^ 15) ∧
    (MmapSizer.default 4096).ComputeMmapSize (2 ^ 20) = .ok (2 ^ 20) ∧
    (MmapSizer.default 4096).ComputeMmapSize (2 ^ 30 + 1) = .ok (2 ^ 31) ∧
    ∀ x, kDefaultMaxMmapSize < x →
      (MmapSizer.default 4096).ComputeMmapSize x = .error .kMmapTooLarge := by
  refine ⟨by rfl, by rfl, by rfl, fun x hx => ?_⟩
  simp [MmapSizer.ComputeMmapSize, MmapSizer.default, hx]

/-- Witness for the amended C1 at the concrete over-max input `2^48`. -/
theorem computeMmapSize_default_boundary_values_witness :
    kDefaultMaxMmapSize < 2 ^ 48 ∧
    (MmapSizer.default 4096).ComputeMmapSize (2 ^ 48) =
      .error .kMmapTooLarge :=
  ⟨by norm_num [kDefaultMaxMmapSize],
   computeMmapSize_default_boundary_values.2.2.2 (2 ^ 48)
     (by norm_num [kDefaultMaxMmapSize])⟩

/-- Claim C2: under the default configuration (max region size `2^48 - 1`,
max step `2^30`) with a power-of-two page size, `ComputeMmapSize` agrees
with the spec's description: the first table entry at or above the request
when one exists, otherwise the request rounded up to the nearest multiple
of the max step, then of the page size, then clamped to the max size. -/
theorem computeMmapSize_eq_spec_description (k requested_size : Nat)
    (hk : k < 64) :
    (MmapSizer.default (2 ^ k)).ComputeMmapSize requested_size =
      ComputeMmapSizeSpec (MmapSizer.default (2 ^ k)) requested_size :=
  computeMmapSize_default_eq_spec k requested_size hk

/-- Witness for C2 at page size `2^12` and request `2^31`. -/
theorem computeMmapSize_eq_spec_description_witness :
    12 < 64 ∧
    (MmapSizer.default (2 ^ 12)).ComputeMmapSize (2 ^ 31) =
      ComputeMmapSizeSpec (MmapSizer.default (2 ^ 12)) (2 ^ 31) :=
  ⟨by norm_num, computeMmapSize_eq_spec_description 12 (2 ^ 31) (by norm_num)⟩

/-- Claim C3: under the default configuration with a power-of-two page size,
`ComputeMmapSize` is monotone: a larger request never yields a smaller
result, whenever neither request is rejected. -/
theorem computeMmapSize_monotone (k a b va vb : Nat) (hk : k < 64)
    (hab : a ≤ b)
    (ha : (MmapSizer.default (2 ^ k)).ComputeMmapSize a = .ok va)
    (hb : (MmapSizer.default (2 ^ k)).ComputeMmapSize b = .ok vb) :
    va ≤ vb := by
  rw [computeMmapSize_default_eq_spec k a hk] at ha
  rw [computeMmapSize_default_eq_spec k b hk] at hb
  unfold ComputeMmapSizeSpec MmapSizer.default at ha hb
  simp only at ha hb
  split at ha
  · simp at ha
  · split at hb
    · simp at hb
    · cases hfb : kMmapSizeLevels.find? fun lvl => decide (b ≤ lvl) with
      | some lb =>
        simp only [hfb] at hb
        obtain ⟨va2, hfa, hle⟩ := find?_le_mono kMmapSizeLevels_sorted hab hfb
        simp only [hfa] at ha
        injection ha with ha
        injection hb with hb
        omega
      | none =>
        simp only [hfb] at hb
        have hb30 : 2 ^ 30 < b := find?_none_gt hfb
        cases hfa : kMmapSizeLevels.find? fun lvl => decide (a ≤ lvl) with
        | some la =>
          simp only [hfa] at ha
          injection ha with ha
          injection hb with hb
          have hla : la ≤ 2 ^ 30 :=
            kMmapSizeLevels_le la (List.mem_of_find?_eq_some hfa)
          have h1 : b ≤ roundUpMultiple b kDefaultMaxMmapStep :=
            le_roundUpMultiple b kDefaultMaxMmapStep
              (by norm_num [kDefaultMaxMmapStep])
          have h2 : roundUpMultiple b kDefaultMaxMmapStep ≤
              roundUpMultiple (roundUpMultiple b kDefaultMaxMmapStep)
                (2 ^ k) :=
            le_roundUpMultiple _ _ (Nat.pos_pow_of_pos k (by norm_num))
          have hmax : 2 ^ 30 < kDefaultMaxMmapSize := by
            norm_num [kDefaultMaxMmapSize]
          rw [← hb]
          exact le_min (by omega) (by omega)
        | none =>
          simp only [hfa] at ha
          injection ha with ha
          injection hb with hb
          have hmono :
              roundUpMultiple (roundUpMultiple a kDefaultMaxMmapStep)
                  (2 ^ k) ≤
                roundUpMultiple (roundUpMultiple b kDefaultMaxMmapStep)
                  (2 ^ k) :=
            roundUpMultiple_mono (2 ^ k)
              (roundUpMultiple_mono kDefaultMaxMmapStep hab)
          rw [← ha, ← hb]
          exact min_le_min hmono (le_refl _)

/-- Witness for C3 at page size `2^12` and requests `1 ≤ 2^20`. -/
theorem computeMmapSize_monotone_witness :
    (MmapSizer.default (2 ^ 12)).ComputeMmapSize 1 = .ok (2 ^ 15) ∧
    (MmapSizer.default (2 ^ 12)).ComputeMmapSize (2 ^ 20) = .ok (2 ^ 20) ∧
    (2 ^ 15 : Nat) ≤ 2 ^ 20 :=
  ⟨by rfl, by rfl,
   computeMmapSize_monotone 12 1 (2 ^ 20) (2 ^ 15) (2 ^ 20) (by norm_num)
     (by norm_num) (by rfl) (by rfl)⟩

/-- Claim C4: `ComputeMmapSize` fails exactly on requests above the configured
maximum region size, the failure value is the `kMmapTooLarge` error code
(an explicit failure-tagged result, with no rounding applied), and every
other request yields a success value. -/
theorem computeMmapSize_error_iff_too_large (s : MmapSizer) (r : Nat) :
    (s.ComputeMmapSize r = .error .kMmapTooLarge ↔ s.max_mmap_size < r) ∧
    ((∃ v, s.ComputeMmapSize r = .ok v) ↔ r ≤ s.max_mmap_size) := by
  unfold MmapSizer.ComputeMmapSize
  by_cases h : s.max_mmap_size < r
  · simp [h]
  · have hle : r ≤ s.max_mmap_size := Nat.le_of_not_lt h
    cases hfind : kMmapSizeLevels.find? fun lvl => decide (r ≤ lvl) with
    | some lvl => simp [hfind, h, hle]
    | none => simp [hfind, h, hle]

/-! ### PagePool (page_pool.hh), single-thread view

`PageData*` pointers are modelled as natural-number page ids and page
payload bytes as one abstract value per page.  The calling thread's
`ThreadLocalCache` (array stack, top of stack at the list head) and the
global victim list (linked LIFO, head at the list head) are modelled
structurally; `new PageData` is modelled by a fresh-id counter and
`delete` by a deleted-pages list. -/

abbrev PageId := Nat

/-- Abstract payload bytes of a `PageData` block. -/
abbrev PageBytes := Nat

namespace ThreadLocalCache

/-- `ThreadLocalCache::IsEmpty`: `top == 0`. -/
def IsEmpty (c : List PageId) : Bool := c.length == 0

/-- `ThreadLocalCache::IsFull`: `top >= N`. -/
def IsFull (N : Nat) (c : List PageId) : Bool := decide (N ≤ c.length)

/-- `ThreadLocalCache::TryPop`: pop the top of the stack if non-empty. -/
def TryPop : List PageId → Option PageId × List PageId
  | [] => (none, [])
  | p :: rest => (some p, rest)

/-- `ThreadLocalCache::TryPush`: push unless the stack is at capacity. -/
def TryPush (N : Nat) (p : PageId) (c : List PageId) :
    Bool × List PageId :=
  if IsFull N c then (false, c) else (true, p :: c)

/-- `ThreadLocalCache::Drain`: delete every held page (bottom of the stack
first) and reset `top` to zero; returns the deleted pages and the emptied
stack. -/
def Drain (c : List PageId) : List PageId × List PageId :=
  (c.reverse, [])

end ThreadLocalCache

/-- The pool configuration: the reset callback fixed at construction. -/
structure PagePool where
  reset_fn : PageBytes → PageBytes

/-- The default reset callback `PagePool::Reset`: a no-op. -/
def PagePool.Reset : PageBytes → PageBytes := id

/-- One thread's view of the pool state: its `ThreadLocalCache`, the
global victim list, the fresh-allocation counter, the pages returned to
the heap, and each page's payload bytes. -/
structure PoolState (N : Nat) where
  localCache : List PageId
  victim : List PageId
  nextFresh : PageId
  deleted : List PageId
  mem : PageId → PageBytes

/-- `PagePool::Get`: pop the thread-local cache, else steal the victim-list
head, else allocate a fresh (uninitialized) page. -/
def PagePool.Get {N : Nat} (s : PoolState N) : PageId × PoolState N :=
  match ThreadLocalCache.TryPop s.localCache with
  | (some p, c) => (p, { s with localCache := c })
  | (none, _) =>
    match s.victim with
    | p :: rest => (p, { s with victim := rest })
    | [] => (s.nextFresh, { s with nextFresh := s.nextFresh + 1 })

/-- `PagePool::Put`: null is a no-op; otherwise run the reset callback on
the page, try to push it onto the thread-local cache, and on overflow push
it onto the global victim list. -/
def PagePool.Put {N : Nat} (pool : PagePool) (page : Option PageId)
    (s : PoolState N) : PoolState N :=
  match page with
  | none => s
  | some p =>
    let s1 : PoolState N :=
      { s with mem := Function.update s.mem p (pool.reset_fn (s.mem p)) }
    match ThreadLocalCache.TryPush N p s1.localCache with
    | (true, c) => { s1 with localCache := c }
    | (false, _) => { s1 with victim := p :: s1.victim }

/-- `ThreadLocalCache::~ThreadLocalCache` at thread exit: `Drain` the local
cache, deleting each held page directly. -/
def PoolState.DrainLocalCache {N : Nat} (s : PoolState N) : PoolState N :=
  let d := ThreadLocalCache.Drain s.localCache
  { s with localCache := d.2, deleted := s.deleted ++ d.1 }

/-- A pool built like the default singleton: reset callback `Reset`. -/
def samplePool : PagePool := ⟨PagePool.Reset⟩

/-- A concrete all-zero memory for witnesses. -/
def sampleMem : PageId → PageBytes := fun _ => 0

/-- A concrete capacity-2 pool state holding pages 7 and 3 locally and
page 9 on the victim list. -/
def sampleState1 : PoolState 2 := ⟨[7, 3], [9], 20, [], sampleMem⟩

/-- A concrete empty pool state at the default capacity 32. -/
def sampleEmpty : PoolState 32 := ⟨[], [], 0, [], sampleMem⟩

/-- Claim C5: for every non-null page, `Put` applies the pool's reset
callback to the page, pushes it onto the thread-local cache when that
cache is below capacity `N` and otherwise onto the global victim list,
never dropping it: afterwards the page sits in exactly one of the two
structures. -/
theorem put_resets_then_caches_or_overflows (pool : PagePool) (N : Nat)
    (s : PoolState N) (p : PageId)
    (hl : p ∉ s.localCache) (hv : p ∉ s.victim) :
    ((pool.Put (some p) s).mem p = pool.reset_fn (s.mem p)) ∧
    (s.localCache.length < N →
      (pool.Put (some p) s).localCache = p :: s.localCache ∧
      (pool.Put (some p) s).victim = s.victim) ∧
    (N ≤ s.localCache.length →
      (pool.Put (some p) s).victim = p :: s.victim ∧
      (pool.Put (some p) s).localCache = s.localCache) ∧
    ((p ∈ (pool.Put (some p) s).localCache ∧
        p ∉ (pool.Put (some p) s).victim) ∨
     (p ∈ (pool.Put (some p) s).victim ∧
        p ∉ (pool.Put (some p) s).localCache)) := by
  refine ⟨?_, fun hlt => ?_, fun hge => ?_, ?_⟩
  · by_cases h : N ≤ s.localCache.length <;>
      simp [PagePool.Put, ThreadLocalCache.TryPush, ThreadLocalCache.IsFull,
        h, Function.update_same]
  · have h : ¬ N ≤ s.localCache.length := by omega
    simp [PagePool.Put, ThreadLocalCache.TryPush, ThreadLocalCache.IsFull, h]
  · simp [PagePool.Put, ThreadLocalCache.TryPush, ThreadLocalCache.IsFull,
      hge]
  · by_cases h : N ≤ s.localCache.length
    · right
      simp [PagePool.Put, ThreadLocalCache.TryPush, ThreadLocalCache.IsFull,
        h, hl]
    · left
      simp [PagePool.Put, ThreadLocalCache.TryPush, ThreadLocalCache.IsFull,
        h, hv]

/-- Witness for C5: putting page 5 into the empty default-capacity state. -/
theorem put_resets_then_caches_or_overflows_witness :
    ((5 : PageId) ∉ sampleEmpty.localCache) ∧
    ((5 : PageId) ∉ sampleEmpty.victim) ∧
    ((samplePool.Put (some 5) sampleEmpty).mem 5 =
        samplePool.reset_fn (sampleEmpty.mem 5)) ∧
    (sampleEmpty.localCache.length < 32 →
      (samplePool.Put (some 5) sampleEmpty).localCache =
        5 :: sampleEmpty.localCache ∧
      (samplePool.Put (some 5) sampleEmpty).victim = sampleEmpty.victim) ∧
    (32 ≤ sampleEmpty.localCache.length →
      (samplePool.Put (some 5) sampleEmpty).victim =
        5 :: sampleEmpty.victim ∧
      (samplePool.Put (some 5) sampleEmpty).localCache =
        sampleEmpty.localCache) ∧
    ((5 ∈ (samplePool.Put (some 5) sampleEmpty).localCache ∧
        5 ∉ (samplePool.Put (some 5) sampleEmpty).victim) ∨
     (5 ∈ (samplePool.Put (some 5) sampleEmpty).victim ∧
        5 ∉ (samplePool.Put (some 5) sampleEmpty).localCache)) :=
  ⟨by simp [sampleEmpty], by simp [sampleEmpty],
   put_resets_then_caches_or_overflows samplePool 32 sampleEmpty 5
     (by simp [sampleEmpty]) (by simp [sampleEmpty])⟩

/-- Claim C6: `Get` always returns a page: the top of the thread-local cache
when non-empty, else the head of the global victim list when non-empty,
else a freshly allocated page; it never touches any page's payload bytes
(contents are left unspecified, not zeroed). -/
theorem get_pops_local_then_victim_then_allocates (N : Nat)
    (s : PoolState N) :
    (∀ p c, s.localCache = p :: c →
      (PagePool.Get s).1 = p ∧ (PagePool.Get s).2.localCache = c ∧
      (PagePool.Get s).2.victim = s.victim) ∧
    (∀ p rest, s.localCache = [] → s.victim = p :: rest →
      (PagePool.Get s).1 = p ∧ (PagePool.Get s).2.victim = rest ∧
      (PagePool.Get s).2.localCache = []) ∧
    (s.localCache = [] → s.victim = [] →
      (PagePool.Get s).1 = s.nextFresh ∧
      (PagePool.Get s).2.nextFresh = s.nextFresh + 1) ∧
    (PagePool.Get s).2.mem = s.mem := by
  refine ⟨fun p c hc => ?_, fun p rest hc hvic => ?_, fun hc hvic => ?_, ?_⟩
  · simp [PagePool.Get, ThreadLocalCache.TryPop, hc]
  · simp [PagePool.Get, ThreadLocalCache.TryPop, hc, hvic]
  · simp [PagePool.Get, ThreadLocalCache.TryPop, hc, hvic]
  · cases hc : s.localCache with
    | cons p c => simp [PagePool.Get, ThreadLocalCache.TryPop, hc]
    | nil =>
      cases hvic : s.victim with
      | cons p rest => simp [PagePool.Get, ThreadLocalCache.TryPop, hc, hvic]
      | nil => simp [PagePool.Get, ThreadLocalCache.TryPop, hc, hvic]

/-- Witness for C6 on a state with a non-empty local cache. -/
theorem get_pops_local_then_victim_then_allocates_witness :
    (PagePool.Get sampleState1).1 = 7 ∧
    (PagePool.Get sampleState1).2.localCache = [3] ∧
    (PagePool.Get sampleState1).2.victim = sampleState1.victim :=
  (get_pops_local_then_victim_then_allocates 2 sampleState1).1 7 [3] rfl

/-- Claim C7: `Put(null)` is a no-op: the reset callback is not invoked and
the thread-local cache and the global victim list are unchanged. -/
theorem put_null_noop (pool : PagePool) (N : Nat) (s : PoolState N) :
    pool.Put none s = s := rfl

/-- Claim C8: in a single-threaded execution, getting a page, putting it
back, and getting again hands back the same page, for every pool state
respecting the cache-capacity invariant. -/
theorem get_put_get_returns_same_page (pool : PagePool) (N : Nat)
    (s : PoolState N) (hcap : s.localCache.length ≤ N) :
    (PagePool.Get (pool.Put (some (PagePool.Get s).1)
        (PagePool.Get s).2)).1 = (PagePool.Get s).1 := by
  cases hc : s.localCache with
  | cons p rest =>
    have h : ¬ N ≤ rest.length := by
      rw [hc] at hcap
      simp at hcap
      omega
    simp [PagePool.Get, PagePool.Put, ThreadLocalCache.TryPop,
      ThreadLocalCache.TryPush, ThreadLocalCache.IsFull, hc, h]
  | nil =>
    by_cases hN : N ≤ 0
    · cases hvic : s.victim with
      | cons p rest =>
        simp [PagePool.Get, PagePool.Put, ThreadLocalCache.TryPop,
          ThreadLocalCache.TryPush, ThreadLocalCache.IsFull, hc, hvic, hN]
      | nil =>
        simp [PagePool.Get, PagePool.Put, ThreadLocalCache.TryPop,
          ThreadLocalCache.TryPush, ThreadLocalCache.IsFull, hc, hvic, hN]
    · cases hvic : s.victim with
      | cons p rest =>
        simp [PagePool.Get, PagePool.Put, ThreadLocalCache.TryPop,
          ThreadLocalCache.TryPush, ThreadLocalCache.IsFull, hc, hvic, hN]
      | nil =>
        simp [PagePool.Get, PagePool.Put, ThreadLocalCache.TryPop,
          ThreadLocalCache.TryPush, ThreadLocalCache.IsFull, hc, hvic, hN]

/-- Witness for C8 on the empty default-capacity state. -/
theorem get_put_get_returns_same_page_witness :
    sampleEmpty.localCache.length ≤ 32 ∧
    (PagePool.Get (samplePool.Put (some (PagePool.Get sampleEmpty).1)
        (PagePool.Get sampleEmpty).2)).1 = (PagePool.Get sampleEmpty).1 :=
  ⟨by simp [sampleEmpty],
   get_put_get_returns_same_page samplePool 32 sampleEmpty
     (by simp [sampleEmpty])⟩

/-- Claim C9: draining a `ThreadLocalCache` at thread exit deletes every page
it still holds (returning it to the heap), donates nothing to the global
victim list — which is left unchanged — and leaves the cache empty. -/
theorem drain_deletes_locally_without_donating (N : Nat)
    (s : PoolState N) :
    (s.DrainLocalCache).localCache = [] ∧
    (s.DrainLocalCache).victim = s.victim ∧
    (s.DrainLocalCache).deleted = s.deleted ++ s.localCache.reverse ∧
    ∀ p, p ∈ s.localCache → p ∈ (s.DrainLocalCache).deleted := by
  refine ⟨rfl, rfl, rfl, fun p hp => ?_⟩
  simp [PoolState.DrainLocalCache, ThreadLocalCache.Drain, hp]

/-- Witness for C9 on the capacity-2 state holding pages 7 and 3. -/
theorem drain_deletes_locally_without_donating_witness :
    (sampleState1.DrainLocalCache).localCache = [] ∧
    (sampleState1.DrainLocalCache).victim = sampleState1.victim ∧
    (sampleState1.DrainLocalCache).deleted =
      sampleState1.deleted ++ sampleState1.localCache.reverse ∧
    (7 : PageId) ∈ (sampleState1.DrainLocalCache).deleted :=
  ⟨(drain_deletes_locally_without_donating 2 sampleState1).1,
   (drain_deletes_locally_without_donating 2 sampleState1).2.1,
   (drain_deletes_locally_without_donating 2 sampleState1).2.2.1,
   (drain_deletes_locally_without_donating 2 sampleState1).2.2.2 7
     (by simp [sampleState1])⟩

end Boltdb
